import Mathlib

/-!
# The lates store (`lates.go`)

A shallow embedding of `LatesStore` and of its methods `list`, `List`, `add`,
`Add` and `checkTime`, followed by the properties proved about them.

Modelling decisions.

* `time.Time` is kept as the calendar date it denotes in the process's local
  zone (what `Time.Date()` returns) together with the nanosecond within that
  day.  Only `Date()`, `Format("01.02.06")` and assignment are used by the
  program, and all three are functions of these components.
* `time.Now()` is an input: every call site of `time.Now()` becomes an
  argument of the embedded function.  `checkTime` reads the clock twice
  (line 111 and line 121), so it takes two readings.
* `map[string]Late` is an association list with pairwise distinct keys
  (`AList`).  `m[k] = v` is `AList.insert`, `make(map[string]Late)` is `∅`, and
  `for k, v := range m` visits `m.entries` in the order of the list.  Go leaves
  the order of a map iteration unspecified, so every statement about the
  result of an iteration is made up to permutation.
* `log.Printf` appends the formatted message to an output sequence; the
  logger's own timestamp header is not part of the message and is left out.
* The embedded mutex serialises `List` and `Add`; in a sequential run `Lock`
  and `Unlock` have no effect on the store, so `List` and `Add` are `list` and
  `add` on the state.
* A `defer`red call runs after the function body has finished, and after the
  operand of `return` has been evaluated.
-/

namespace Lates

/-- Late represents an individual late request. -/
structure Late where
  /-- The requester's name. -/
  Name : String
  /-- Whether the requester wants to have only veggie options. -/
  Vegetarian : Bool
  /-- Whether the requester wants to have their late refrigerated. -/
  Refrigerated : Bool
  deriving DecidableEq, Repr

/-- A clock reading: the calendar date of a `time.Time` in the local zone and
the nanosecond within that day. -/
structure Time where
  year : Int
  month : Nat
  day : Nat
  nsec : Nat
  deriving DecidableEq, Repr

/-- The result of `t.Date()`: year, month and day. -/
def Time.Date (t : Time) : Int × Nat × Nat :=
  (t.year, t.month, t.day)

/-- Lexicographic order on calendar dates: `a` is an earlier day than `b`. -/
def dateBefore (a b : Int × Nat × Nat) : Prop :=
  a.1 < b.1 ∨ (a.1 = b.1 ∧ (a.2.1 < b.2.1 ∨ (a.2.1 = b.2.1 ∧ a.2.2 < b.2.2)))

instance (a b : Int × Nat × Nat) : Decidable (dateBefore a b) := by
  unfold dateBefore
  infer_instance

/-- A number printed in at least two decimal digits, as the layout elements
`01`, `02` and `06` print it. -/
def twoDigits (n : Nat) : String :=
  if n < 10 then "0" ++ toString n else toString n

/-- The result of `t.Format("01.02.06")`: month, day and the last two digits
of the year, separated by dots. -/
def Time.Format010206 (t : Time) : String :=
  twoDigits t.month ++ "." ++ twoDigits t.day ++ "." ++ twoDigits (t.year.natAbs % 100)

/-- The slice type `[]T`, as a sequence of values. -/
abbrev Slice (α : Type) := List α

/-- The type `map[string]Late`. -/
abbrev Cache := AList (fun _ : String => Late)

/-- LatesStore is an in-memory map that keeps track of all the lates. -/
structure LatesStore where
  /-- The underlying map from requester names to their Late request. -/
  cache : Cache
  /-- The last time any member of LatesStore was accessed. -/
  lastReq : Time

/-- A boolean as the verbs `%v` and `%+v` print it. -/
def fmtBool (b : Bool) : String :=
  if b then "true" else "false"

/-- The message of `log.Printf("%s: %+v\n", name, late)`. -/
def fmtEntry (name : String) (late : Late) : String :=
  name ++ ": \x7bName:" ++ late.Name ++ " Vegetarian:" ++ fmtBool late.Vegetarian
    ++ " Refrigerated:" ++ fmtBool late.Refrigerated ++ "\x7d\n"

/-- The message of `log.Printf("Dumping logs from date: %s \n", ...)`. -/
def fmtHeader (t : Time) : String :=
  "Dumping logs from date: " ++ t.Format010206 ++ " \n"

/-- The condition of the `if` in `checkTime`, on the results of the two calls
of `Date()`. -/
def dateChanged (old new : Int × Nat × Nat) : Bool :=
  old.1 != new.1 || old.2.1 != new.2.1 || old.2.2 != new.2.2

/-- The loop `for name, late := range ls.cache { log.Printf(...) }`. -/
def dumpEntries (c : Cache) : Slice String :=
  c.entries.foldl (fun out e => out ++ [fmtEntry e.1 e.2]) []

/-- The method `checkTime`: `now1` is the clock reading of line 111 and `now2`
the one of line 121.  Returns the store and the messages logged. -/
def LatesStore.checkTime (ls : LatesStore) (now1 now2 : Time) : LatesStore × Slice String :=
  if dateChanged ls.lastReq.Date now1.Date then
    (LatesStore.mk ∅ now2, fmtHeader ls.lastReq :: dumpEntries ls.cache)
  else
    (LatesStore.mk ls.cache now2, [])

/-- The loop `for _, late := range ls.cache { out = append(out, late) }`. -/
def collect (c : Cache) : Slice Late :=
  c.entries.foldl (fun out e => out ++ [e.2]) []

/-- The method `list`: the body builds `out` from the cache, `return out`
fixes the result, and then the deferred `checkTime` runs.  Returns the result,
the store afterwards and the messages logged. -/
def LatesStore.list (ls : LatesStore) (now1 now2 : Time) :
    Slice Late × LatesStore × Slice String :=
  let out := collect ls.cache
  let after := ls.checkTime now1 now2
  (out, after.1, after.2)

/-- The method `add`: the body stores `l` under `l.Name`, and then the deferred
`checkTime` runs.  Returns the store afterwards and the messages logged. -/
def LatesStore.add (ls : LatesStore) (l : Late) (now1 now2 : Time) :
    LatesStore × Slice String :=
  (LatesStore.mk (ls.cache.insert l.Name l) ls.lastReq).checkTime now1 now2

/-- The exported `List`: `list` between `Lock` and `Unlock`. -/
def LatesStore.List (ls : LatesStore) (now1 now2 : Time) :
    Slice Late × LatesStore × Slice String :=
  ls.list now1 now2

/-- The exported `Add`: `add` between `Lock` and `Unlock`. -/
def LatesStore.Add (ls : LatesStore) (l : Late) (now1 now2 : Time) :
    LatesStore × Slice String :=
  ls.add l now1 now2

/-- The store built by `init`, started at clock reading `t`. -/
def initStore (t : Time) : LatesStore :=
  LatesStore.mk ∅ t

/-- One `Add` after another, each with its two clock readings. -/
def addAll (ls : LatesStore) (calls : Slice (Late × Time × Time)) : LatesStore :=
  calls.foldl (fun s c => (s.Add c.1 c.2.1 c.2.2).1) ls

/-- The states the store can be in: the one built by `init`, and every state
that a call of `Add` or `List` leaves behind. -/
inductive Reachable : LatesStore → Prop
  | init (t : Time) : Reachable (initStore t)
  | afterAdd (ls : LatesStore) (l : Late) (now1 now2 : Time) :
      Reachable ls → Reachable (ls.Add l now1 now2).1
  | afterList (ls : LatesStore) (now1 now2 : Time) :
      Reachable ls → Reachable (ls.List now1 now2).2.1


/-- Every record of the cache is stored under its own `Name`. -/
def KeyedByName (c : Cache) : Prop :=
  ∀ e ∈ c.entries, e.2.Name = e.1

/-- Order of clock readings: `a` is not later than `b`. -/
def Time.le (a b : Time) : Prop :=
  dateBefore a.Date b.Date ∨ (a.Date = b.Date ∧ a.nsec ≤ b.nsec)

instance (a b : Time) : Decidable (Time.le a b) := by
  unfold Time.le
  infer_instance

/-- An access to the store by the request handlers: `store.Add(l)` in
`handleSubmit`, `store.List()` in `renderLates`. -/
inductive Call where
  | add (l : Late)
  | list
  deriving DecidableEq, Repr

/-- The effect of one access on the store, with the messages it logs. -/
def LatesStore.call (ls : LatesStore) (c : Call) (now1 now2 : Time) :
    LatesStore × Slice String :=
  match c with
  | Call.add l => ls.Add l now1 now2
  | Call.list => ((ls.List now1 now2).2.1, (ls.List now1 now2).2.2)

/-- A sequence of accesses, each with its two clock readings; the messages
logged are collected in order. -/
def runCalls : LatesStore → Slice (Call × Time × Time) → LatesStore × Slice String
  | ls, [] => (ls, [])
  | ls, c :: cs =>
    let r := ls.call c.1 c.2.1 c.2.2
    let rest := runCalls r.1 cs
    (rest.1, r.2 ++ rest.2)

/-! ## The store with a map that may be nil

The definitions above take `cache` to be a map made by `make`.  The type
`map[string]Late` also has the value `nil`: ranging over a nil map visits
nothing, and assigning to an entry of a nil map panics.  The definitions below
repeat `checkTime`, `list` and `add` over that larger type, with the panic as a
result of the call. -/

namespace Nilable

/-- A value of type `map[string]Late`: `none` is the nil map. -/
abbrev GoMap := Option Cache

/-- The entries that `range` visits: none for the nil map. -/
def rangeOf (m : GoMap) : Slice (Sigma (fun _ : String => Late)) :=
  match m with
  | none => []
  | some c => c.entries

/-- The struct `LatesStore` with a cache that may be nil. -/
structure LatesStore where
  cache : GoMap
  lastReq : Time

/-- How a call ends: it returns, or it panics with a run-time error. -/
inductive Outcome where
  | returned
  | panicked (msg : String)
  deriving DecidableEq, Repr

/-- The method `checkTime` over a cache that may be nil. -/
def LatesStore.checkTime (ls : LatesStore) (now1 now2 : Time) : LatesStore × Slice String :=
  if dateChanged ls.lastReq.Date now1.Date then
    (LatesStore.mk (some ∅) now2,
      fmtHeader ls.lastReq ::
        (rangeOf ls.cache).foldl (fun out e => out ++ [fmtEntry e.1 e.2]) [])
  else
    (LatesStore.mk ls.cache now2, [])

/-- The method `list` over a cache that may be nil; no statement of it can
panic. -/
def LatesStore.list (ls : LatesStore) (now1 now2 : Time) :
    Outcome × Slice Late × LatesStore × Slice String :=
  let out := (rangeOf ls.cache).foldl (fun out e => out ++ [e.2]) []
  let after := ls.checkTime now1 now2
  (Outcome.returned, out, after.1, after.2)

/-- The method `add` over a cache that may be nil: the assignment panics on the
nil map, and the deferred `checkTime` runs in either case. -/
def LatesStore.add (ls : LatesStore) (l : Late) (now1 now2 : Time) :
    Outcome × LatesStore × Slice String :=
  match ls.cache with
  | none =>
    let after := ls.checkTime now1 now2
    (Outcome.panicked "assignment to entry in nil map", after.1, after.2)
  | some c =>
    let after := (LatesStore.mk (some (c.insert l.Name l)) ls.lastReq).checkTime now1 now2
    (Outcome.returned, after.1, after.2)

/-- The exported `List`: `list` between `Lock` and `Unlock`. -/
def LatesStore.List (ls : LatesStore) (now1 now2 : Time) :
    Outcome × Slice Late × LatesStore × Slice String :=
  ls.list now1 now2

/-- The exported `Add`: `add` between `Lock` and `Unlock`. -/
def LatesStore.Add (ls : LatesStore) (l : Late) (now1 now2 : Time) :
    Outcome × LatesStore × Slice String :=
  ls.add l now1 now2

/-- The store built by `init`: `cache: make(map[string]Late)`. -/
def initStore (t : Time) : LatesStore :=
  LatesStore.mk (some ∅) t

/-- The states the store can be in, however the calls ended. -/
inductive Reachable : LatesStore → Prop
  | init (t : Time) : Reachable (initStore t)
  | afterAdd (ls : LatesStore) (l : Late) (now1 now2 : Time) :
      Reachable ls → Reachable (ls.Add l now1 now2).2.1
  | afterList (ls : LatesStore) (now1 now2 : Time) :
      Reachable ls → Reachable (ls.List now1 now2).2.2.1

/-- A store whose cache is not nil, seen as a store of the larger type. -/
def ofStore (ls : Lates.LatesStore) : LatesStore :=
  LatesStore.mk (some ls.cache) ls.lastReq

end Nilable

/-! ## Concrete data used to evaluate the program -/

/-- The ninth of March 2024, 22:00. -/
def yesterday : Time := ⟨2024, 3, 9, 79200000000000⟩

/-- The tenth of March 2024, 08:00. -/
def today : Time := ⟨2024, 3, 10, 28800000000000⟩

/-- The tenth of March 2024, 08:05. -/
def todayLater : Time := ⟨2024, 3, 10, 29100000000000⟩

/-- A late request by `ann`. -/
def ann : Late := ⟨"ann", true, false⟩

/-- A late request by `bob`. -/
def bob : Late := ⟨"bob", false, true⟩

/-- The store after `init` and one `Add(ann)`, all on the ninth of March. -/
def storeYesterday : LatesStore :=
  ((initStore yesterday).Add ann yesterday yesterday).1

/-- The eighth of March 2024, 12:00. -/
def twoDaysAgo : Time := ⟨2024, 3, 8, 43200000000000⟩

/-- The ninth of March 2024, one nanosecond before midnight. -/
def beforeMidnight : Time := ⟨2024, 3, 9, 86399999999999⟩

/-- The tenth of March 2024, one nanosecond after midnight. -/
def afterMidnight : Time := ⟨2024, 3, 10, 1⟩

/-- The eleventh of March 2024, 09:00. -/
def tomorrow : Time := ⟨2024, 3, 11, 32400000000000⟩

/-! ## Auxiliary facts -/

theorem foldl_append_singleton {α β : Type} (f : α → β) (l : List α) (acc : List β) :
    l.foldl (fun out e => out ++ [f e]) acc = acc ++ l.map f := by
  induction l generalizing acc with
  | nil => simp
  | cons x xs ih => simp [ih]

theorem collect_eq_map (c : Cache) : collect c = c.entries.map (fun e => e.2) := by
  unfold collect
  rw [foldl_append_singleton (fun e : Sigma (fun _ : String => Late) => e.2)]
  simp

theorem dateChanged_eq_true_iff (a b : Int × Nat × Nat) : dateChanged a b = true ↔ b ≠ a := by
  obtain ⟨a1, a2, a3⟩ := a
  obtain ⟨b1, b2, b3⟩ := b
  simp only [dateChanged, Bool.or_eq_true, bne_iff_ne, ne_eq, Prod.mk.injEq, not_and]
  omega

theorem checkTime_same_day (ls : LatesStore) (now1 now2 : Time)
    (h : now1.Date = ls.lastReq.Date) :
    ls.checkTime now1 now2 = (LatesStore.mk ls.cache now2, []) := by
  have hc : dateChanged ls.lastReq.Date now1.Date = false := by
    cases hd : dateChanged ls.lastReq.Date now1.Date with
    | false => rfl
    | true => exact absurd h ((dateChanged_eq_true_iff _ _).1 hd)
  simp [LatesStore.checkTime, hc]

theorem checkTime_new_day (ls : LatesStore) (now1 now2 : Time)
    (h : now1.Date ≠ ls.lastReq.Date) :
    ls.checkTime now1 now2
      = (LatesStore.mk ∅ now2, fmtHeader ls.lastReq :: dumpEntries ls.cache) := by
  have hc : dateChanged ls.lastReq.Date now1.Date = true :=
    (dateChanged_eq_true_iff _ _).2 h
  simp [LatesStore.checkTime, hc]

theorem checkTime_lastReq (ls : LatesStore) (now1 now2 : Time) :
    (ls.checkTime now1 now2).1.lastReq = now2 := by
  unfold LatesStore.checkTime
  split <;> rfl

theorem Add_same_day (ls : LatesStore) (l : Late) (now1 now2 : Time)
    (h : now1.Date = ls.lastReq.Date) :
    (ls.Add l now1 now2).1 = LatesStore.mk (ls.cache.insert l.Name l) now2 := by
  unfold LatesStore.Add LatesStore.add
  rw [checkTime_same_day (LatesStore.mk (ls.cache.insert l.Name l) ls.lastReq) now1 now2 h]

theorem List_result (ls : LatesStore) (now1 now2 : Time) :
    (ls.List now1 now2).1 = ls.cache.entries.map (fun e => e.2) :=
  collect_eq_map ls.cache

theorem List_store (ls : LatesStore) (now1 now2 : Time) :
    (ls.List now1 now2).2.1 = (ls.checkTime now1 now2).1 := rfl

theorem keyedByName_empty : KeyedByName ∅ := by
  intro e he
  simp at he

theorem mem_entries_insert (c : Cache) (k : String) (v : Late)
    (e : Sigma (fun _ : String => Late)) (he : e ∈ (c.insert k v).entries) :
    e = ⟨k, v⟩ ∨ (e ∈ c.entries ∧ e.1 ≠ k) := by
  rw [AList.insert_entries] at he
  rcases List.mem_cons.1 he with h | h
  · exact Or.inl h
  · refine Or.inr ⟨(List.kerase_sublist k c.entries).subset h, ?_⟩
    intro hk
    have hn : e.1 ∉ (List.kerase k c.entries).keys := by
      rw [hk]
      exact List.not_mem_keys_kerase k c.nodupKeys
    exact hn (List.mem_keys_of_mem h)

theorem keyedByName_insert (c : Cache) (l : Late) (h : KeyedByName c) :
    KeyedByName (c.insert l.Name l) := by
  intro e he
  rcases mem_entries_insert c l.Name l e he with h1 | h1
  · rw [h1]
  · exact h e h1.1

theorem keyedByName_checkTime (ls : LatesStore) (now1 now2 : Time)
    (h : KeyedByName ls.cache) : KeyedByName (ls.checkTime now1 now2).1.cache := by
  unfold LatesStore.checkTime
  split
  · exact keyedByName_empty
  · exact h

theorem keyedByName_of_reachable (ls : LatesStore) (h : Reachable ls) :
    KeyedByName ls.cache := by
  induction h with
  | init t => exact keyedByName_empty
  | afterAdd s l n1 n2 _ ih =>
      exact keyedByName_checkTime _ n1 n2 (keyedByName_insert s.cache l ih)
  | afterList s n1 n2 _ ih => exact keyedByName_checkTime s n1 n2 ih

theorem collect_insert_fresh (c : Cache) (l : Late) (h : l.Name ∉ c) :
    collect (c.insert l.Name l) = l :: collect c := by
  rw [collect_eq_map, collect_eq_map, AList.insert_entries_of_neg h]
  rfl

theorem addAll_cons (ls : LatesStore) (c : Late × Time × Time)
    (cs : Slice (Late × Time × Time)) :
    addAll ls (c :: cs) = addAll (ls.Add c.1 c.2.1 c.2.2).1 cs := rfl

theorem collect_addAll (calls : Slice (Late × Time × Time)) (ls : LatesStore)
    (hnd : (calls.map (fun c => c.1.Name)).Nodup)
    (hfresh : ∀ c ∈ calls, c.1.Name ∉ ls.cache)
    (hday : ∀ c ∈ calls, c.2.1.Date = ls.lastReq.Date ∧ c.2.2.Date = ls.lastReq.Date) :
    (collect (addAll ls calls).cache).Perm (calls.map (fun c => c.1) ++ collect ls.cache) := by
  induction calls generalizing ls with
  | nil => exact List.Perm.refl _
  | cons c cs ih =>
    have hc := hday c (List.mem_cons_self c cs)
    have hstep := Add_same_day ls c.1 c.2.1 c.2.2 hc.1
    rw [List.map_cons, List.nodup_cons] at hnd
    rw [addAll_cons]
    have hfresh2 : ∀ x ∈ cs, x.1.Name ∉ (ls.Add c.1 c.2.1 c.2.2).1.cache := by
      intro x hx hmem
      rw [hstep] at hmem
      rcases (AList.mem_insert ls.cache).1 hmem with h | h
      · exact hnd.1 (List.mem_map.2 ⟨x, hx, h⟩)
      · exact hfresh x (List.mem_cons_of_mem c hx) h
    have hday2 : ∀ x ∈ cs, x.2.1.Date = (ls.Add c.1 c.2.1 c.2.2).1.lastReq.Date
        ∧ x.2.2.Date = (ls.Add c.1 c.2.1 c.2.2).1.lastReq.Date := by
      intro x hx
      have hx2 := hday x (List.mem_cons_of_mem c hx)
      rw [hstep]
      exact ⟨hx2.1.trans hc.2.symm, hx2.2.trans hc.2.symm⟩
    refine (ih (ls.Add c.1 c.2.1 c.2.2).1 hnd.2 hfresh2 hday2).trans ?_
    rw [hstep]
    rw [collect_insert_fresh ls.cache c.1 (hfresh c (List.mem_cons_self c cs))]
    exact List.perm_middle

theorem Add_new_day (ls : LatesStore) (l : Late) (now1 now2 : Time)
    (h : now1.Date ≠ ls.lastReq.Date) :
    (ls.Add l now1 now2).1 = LatesStore.mk ∅ now2 := by
  unfold LatesStore.Add LatesStore.add
  rw [checkTime_new_day (LatesStore.mk (ls.cache.insert l.Name l) ls.lastReq) now1 now2 h]

theorem dateBefore_ne (a b : Int × Nat × Nat) (h : dateBefore a b) : a ≠ b := by
  obtain ⟨a1, a2, a3⟩ := a
  obtain ⟨b1, b2, b3⟩ := b
  simp only [dateBefore] at h
  simp only [ne_eq, Prod.mk.injEq, not_and]
  omega

theorem dumpEntries_eq_map (c : Cache) :
    dumpEntries c = c.entries.map (fun e => fmtEntry e.1 e.2) := by
  unfold dumpEntries
  rw [foldl_append_singleton (fun e : Sigma (fun _ : String => Late) => fmtEntry e.1 e.2)]
  simp

theorem call_same_day (ls : LatesStore) (c : Call) (now1 now2 : Time)
    (h : now1.Date = ls.lastReq.Date) :
    (ls.call c now1 now2).2 = []
      ∧ (ls.call c now1 now2).1.lastReq = now2
      ∧ ∀ k, k ∈ ls.cache → k ∈ (ls.call c now1 now2).1.cache := by
  cases c with
  | add l =>
    have hA : ls.call (Call.add l) now1 now2
        = (LatesStore.mk (ls.cache.insert l.Name l) now2, []) := by
      show (LatesStore.mk (ls.cache.insert l.Name l) ls.lastReq).checkTime now1 now2 = _
      rw [checkTime_same_day (LatesStore.mk (ls.cache.insert l.Name l) ls.lastReq) now1 now2 h]
    rw [hA]
    exact ⟨rfl, rfl, fun k hk => (AList.mem_insert ls.cache).2 (Or.inr hk)⟩
  | list =>
    have hL : ls.call Call.list now1 now2 = (LatesStore.mk ls.cache now2, []) := by
      show ((ls.checkTime now1 now2).1, (ls.checkTime now1 now2).2) = _
      rw [checkTime_same_day ls now1 now2 h]
    rw [hL]
    exact ⟨rfl, rfl, fun k hk => hk⟩

theorem runCalls_cons (ls : LatesStore) (c : Call × Time × Time)
    (cs : Slice (Call × Time × Time)) :
    runCalls ls (c :: cs)
      = ((runCalls (ls.call c.1 c.2.1 c.2.2).1 cs).1,
          (ls.call c.1 c.2.1 c.2.2).2 ++ (runCalls (ls.call c.1 c.2.1 c.2.2).1 cs).2) := rfl

theorem runCalls_same_day (calls : Slice (Call × Time × Time)) (ls : LatesStore)
    (hday : ∀ c ∈ calls, c.2.1.Date = ls.lastReq.Date ∧ c.2.2.Date = ls.lastReq.Date) :
    (runCalls ls calls).2 = [] ∧ ∀ k, k ∈ ls.cache → k ∈ (runCalls ls calls).1.cache := by
  induction calls generalizing ls with
  | nil => exact ⟨rfl, fun k hk => hk⟩
  | cons c cs ih =>
    have hc := hday c (List.mem_cons_self c cs)
    obtain ⟨hlog, hlast, hkeys⟩ := call_same_day ls c.1 c.2.1 c.2.2 hc.1
    have hday2 : ∀ x ∈ cs, x.2.1.Date = (ls.call c.1 c.2.1 c.2.2).1.lastReq.Date
        ∧ x.2.2.Date = (ls.call c.1 c.2.1 c.2.2).1.lastReq.Date := by
      intro x hx
      have hx2 := hday x (List.mem_cons_of_mem c hx)
      rw [hlast]
      exact ⟨hx2.1.trans hc.2.symm, hx2.2.trans hc.2.symm⟩
    obtain ⟨ihlog, ihkeys⟩ := ih (ls.call c.1 c.2.1 c.2.2).1 hday2
    rw [runCalls_cons]
    refine ⟨?_, fun k hk => ihkeys k (hkeys k hk)⟩
    show (ls.call c.1 c.2.1 c.2.2).2 ++ (runCalls (ls.call c.1 c.2.1 c.2.2).1 cs).2 = []
    rw [hlog, ihlog]
    rfl

theorem nilable_checkTime_isSome (ls : Nilable.LatesStore) (now1 now2 : Time)
    (h : ls.cache ≠ none) : (ls.checkTime now1 now2).1.cache ≠ none := by
  unfold Nilable.LatesStore.checkTime
  split
  · exact Option.some_ne_none _
  · exact h

theorem nilable_checkTime_ofStore (s : LatesStore) (now1 now2 : Time) :
    (Nilable.ofStore s).checkTime now1 now2
      = (Nilable.ofStore (s.checkTime now1 now2).1, (s.checkTime now1 now2).2) := by
  unfold Nilable.LatesStore.checkTime LatesStore.checkTime Nilable.ofStore
  simp only []
  split <;> rfl

theorem nilable_Add_ofStore (s : LatesStore) (l : Late) (now1 now2 : Time) :
    (Nilable.ofStore s).Add l now1 now2
      = (Nilable.Outcome.returned, Nilable.ofStore (s.Add l now1 now2).1,
          (s.Add l now1 now2).2) := by
  have h := nilable_checkTime_ofStore (LatesStore.mk (s.cache.insert l.Name l) s.lastReq)
    now1 now2
  show (Nilable.Outcome.returned,
      ((Nilable.ofStore (LatesStore.mk (s.cache.insert l.Name l) s.lastReq)).checkTime
        now1 now2).1,
      ((Nilable.ofStore (LatesStore.mk (s.cache.insert l.Name l) s.lastReq)).checkTime
        now1 now2).2) = _
  rw [h]
  rfl

theorem nilable_List_ofStore (s : LatesStore) (now1 now2 : Time) :
    (Nilable.ofStore s).List now1 now2
      = (Nilable.Outcome.returned, (s.List now1 now2).1,
          Nilable.ofStore (s.List now1 now2).2.1, (s.List now1 now2).2.2) := by
  have h := nilable_checkTime_ofStore s now1 now2
  show (Nilable.Outcome.returned, collect s.cache,
      ((Nilable.ofStore s).checkTime now1 now2).1,
      ((Nilable.ofStore s).checkTime now1 now2).2) = _
  rw [h]
  rfl

theorem nilable_reachable_isSome (ls : Nilable.LatesStore) (h : Nilable.Reachable ls) :
    ls.cache ≠ none := by
  induction h with
  | init t => exact Option.some_ne_none _
  | afterAdd s l n1 n2 _ ih =>
    cases hc : s.cache with
    | none => exact absurd hc ih
    | some c =>
      have : (s.Add l n1 n2).2.1
          = ((Nilable.LatesStore.mk (some (c.insert l.Name l)) s.lastReq).checkTime n1 n2).1 := by
        unfold Nilable.LatesStore.Add Nilable.LatesStore.add
        rw [hc]
      rw [this]
      exact nilable_checkTime_isSome _ n1 n2 (Option.some_ne_none _)
  | afterList s n1 n2 _ ih => exact nilable_checkTime_isSome s n1 n2 ih

/-! ## The claims -/

/-- C1 (the code departs from the claim): a `List` call in which the rollover
check fires returns the records stored before the clear.  The store holds
`ann` with `lastReq` on the ninth of March; `List` on the tenth returns `[ann]`,
not the empty sequence, while the cache it leaves behind is empty. -/
theorem C1_list_returns_preclear_records :
    today.Date ≠ storeYesterday.lastReq.Date
      ∧ (storeYesterday.List today todayLater).1 = [ann]
      ∧ (storeYesterday.List today todayLater).1 ≠ []
      ∧ (storeYesterday.List today todayLater).2.1.cache.entries = [] := by
  decide

/-- C2 (the code departs from the claim): an `Add` call in which the rollover
check fires does not leave the record in the cache.  With `lastReq` on the
ninth of March, `Add(bob)` on the tenth stores `bob`, and the deferred
`checkTime` then clears the cache: afterwards no record is stored under
`bob.Name`, and `bob` is written to the log among the records of the ninth. -/
theorem C2_add_on_rollover_loses_record :
    today.Date ≠ storeYesterday.lastReq.Date
      ∧ (storeYesterday.Add bob today todayLater).1.cache.lookup bob.Name = none
      ∧ (storeYesterday.Add bob today todayLater).1.cache.entries = []
      ∧ fmtEntry bob.Name bob ∈ (storeYesterday.Add bob today todayLater).2 := by
  decide

/-- C3: from any state the store can be in, `Add` of `k` with flags `a`, `b`,
then `Add` of `k` with flags `c`, `d`, then `List`, all clock readings on the
calendar date of `lastReq`, returns a sequence in which exactly one record has
`Name` `k`, and that record carries `c` and `d`. -/
theorem C3_same_key_last_write_wins (ls : LatesStore) (hr : Reachable ls) (k : String)
    (a b c d : Bool) (n1 n2 n3 n4 n5 n6 : Time)
    (h1 : n1.Date = ls.lastReq.Date) (h2 : n2.Date = ls.lastReq.Date)
    (h3 : n3.Date = ls.lastReq.Date) (_h4 : n4.Date = ls.lastReq.Date)
    (_h5 : n5.Date = ls.lastReq.Date) (_h6 : n6.Date = ls.lastReq.Date) :
    ((((ls.Add (Late.mk k a b) n1 n2).1.Add (Late.mk k c d) n3 n4).1.List n5 n6).1.filter
      (fun r => decide (r.Name = k))) = [Late.mk k c d] := by
  have hs1 := Add_same_day ls (Late.mk k a b) n1 n2 h1
  have hs2 := Add_same_day (ls.Add (Late.mk k a b) n1 n2).1 (Late.mk k c d) n3 n4
    (by rw [hs1]; exact h3.trans h2.symm)
  rw [List_result, hs2, hs1]
  simp only [AList.insert_insert, AList.insert_entries, List.map_cons, List.filter_cons,
    decide_True, if_true]
  congr 1
  rw [List.filter_eq_nil_iff]
  intro r hr2
  obtain ⟨e, he, rfl⟩ := List.mem_map.1 hr2
  have hk : e.1 ≠ k := by
    intro hk
    have hn : e.1 ∉ (List.kerase k ls.cache.entries).keys := by
      rw [hk]
      exact List.not_mem_keys_kerase k ls.cache.nodupKeys
    exact hn (List.mem_keys_of_mem he)
  have hname := keyedByName_of_reachable ls hr e ((List.kerase_sublist k _).subset he)
  simp [hname, hk]

/-- Witness of C3 on the store built by `init`. -/
theorem C3_same_key_last_write_wins_witness :
    Reachable (initStore today) ∧
    ((((initStore today).Add (Late.mk "ann" true false) today today).1.Add
        (Late.mk "ann" false true) today today).1.List today today).1.filter
      (fun r => decide (r.Name = "ann")) = [Late.mk "ann" false true] :=
  ⟨Reachable.init today,
    C3_same_key_last_write_wins (initStore today) (Reachable.init today) "ann"
      true false false true today today today today today today rfl rfl rfl rfl rfl rfl⟩

/-- C4: records with pairwise distinct `Name`s, added one after another to the
empty store with all clock readings on the calendar date of `lastReq`, are
returned by `List` as a permutation of exactly those records, flags included;
and a same-day `Add(l)` leaves what is stored under every key other than
`l.Name` as it was. -/
theorem C4_distinct_keys_isolated (t : Time) (calls : List (Late × Time × Time))
    (m1 m2 : Time)
    (hnd : (calls.map (fun c => c.1.Name)).Nodup)
    (hday : ∀ c ∈ calls, c.2.1.Date = t.Date ∧ c.2.2.Date = t.Date)
    (_hm1 : m1.Date = t.Date) (_hm2 : m2.Date = t.Date) :
    ((addAll (initStore t) calls).List m1 m2).1.Perm (calls.map (fun c => c.1))
      ∧ ∀ (ls : LatesStore) (l : Late) (n1 n2 : Time) (k : String),
          n1.Date = ls.lastReq.Date → k ≠ l.Name →
          (ls.Add l n1 n2).1.cache.lookup k = ls.cache.lookup k := by
  constructor
  · have h := collect_addAll calls (initStore t) hnd
      (fun c _ => AList.not_mem_empty c.1.Name) hday
    have he : collect (initStore t).cache = [] := rfl
    rw [he, List.append_nil] at h
    exact h
  · intro ls l n1 n2 k h hk
    rw [Add_same_day ls l n1 n2 h]
    exact AList.lookup_insert_ne hk

/-- Witness of C4: `ann` and `bob` added on the tenth of March. -/
theorem C4_distinct_keys_isolated_witness :
    ((addAll (initStore today) [(ann, today, today), (bob, today, todayLater)]).List
        todayLater todayLater).1.Perm [ann, bob]
      ∧ (storeYesterday.Add bob yesterday yesterday).1.cache.lookup "ann"
          = storeYesterday.cache.lookup "ann" :=
  have h := C4_distinct_keys_isolated today [(ann, today, today), (bob, today, todayLater)]
    todayLater todayLater (by decide) (by decide) (by decide) (by decide)
  ⟨h.1, h.2 storeYesterday bob yesterday yesterday "ann" (by decide) (by decide)⟩

/-- C5: `List` returns one element per entry of the cache as it is when `List`
is called: the result is a permutation of the stored records, its length is the
number of keys, and a record occurs in it exactly when it is stored under some
key. -/
theorem C5_list_is_snapshot_of_cache (ls : LatesStore) (n1 n2 : Time) :
    (ls.List n1 n2).1.Perm (ls.cache.entries.map (fun e => e.2))
      ∧ (ls.List n1 n2).1.length = ls.cache.keys.length
      ∧ ∀ r : Late, r ∈ (ls.List n1 n2).1 ↔ ∃ k, ls.cache.lookup k = some r := by
  rw [List_result]
  refine ⟨List.Perm.refl _, by simp [AList.keys, List.keys], ?_⟩
  intro r
  constructor
  · intro h
    obtain ⟨e, he, rfl⟩ := List.mem_map.1 h
    exact ⟨e.1, AList.mem_lookup_iff.2 he⟩
  · rintro ⟨k, hk⟩
    exact List.mem_map.2 ⟨⟨k, r⟩, AList.mem_lookup_iff.1 hk, rfl⟩

/-- C6: an `Add` or `List` call whose clock reading has the calendar date of
`lastReq` clears nothing.  `List` leaves the cache unchanged; `Add(l)` stores `l`
under `l.Name`, keeps every key and leaves every other entry as it was; and
after two same-day `Add`s with distinct `Name`s a `List` returns both
records. -/
theorem C6_same_day_keeps_entries (ls : LatesStore) (l : Late) (n1 n2 : Time)
    (h : n1.Date = ls.lastReq.Date) :
    (ls.List n1 n2).2.1.cache = ls.cache
      ∧ (ls.List n1 n2).2.2 = []
      ∧ (ls.Add l n1 n2).1.cache.lookup l.Name = some l
      ∧ (∀ k, k ≠ l.Name → (ls.Add l n1 n2).1.cache.lookup k = ls.cache.lookup k)
      ∧ (∀ k, k ∈ ls.cache.keys → k ∈ (ls.Add l n1 n2).1.cache.keys)
      ∧ (ls.Add l n1 n2).2 = []
      ∧ ∀ (l2 : Late) (n3 n4 n5 n6 : Time), n3.Date = n2.Date → l.Name ≠ l2.Name →
          l ∈ (((ls.Add l n1 n2).1.Add l2 n3 n4).1.List n5 n6).1
            ∧ l2 ∈ (((ls.Add l n1 n2).1.Add l2 n3 n4).1.List n5 n6).1 := by
  have hA := Add_same_day ls l n1 n2 h
  refine ⟨?_, ?_, ?_, ?_, ?_, ?_, ?_⟩
  · rw [List_store, checkTime_same_day ls n1 n2 h]
  · show (ls.checkTime n1 n2).2 = []
    rw [checkTime_same_day ls n1 n2 h]
  · rw [hA]
    exact AList.lookup_insert ls.cache
  · intro k hk
    rw [hA]
    exact AList.lookup_insert_ne hk
  · intro k hk
    rw [hA]
    exact AList.mem_keys.1 ((AList.mem_insert ls.cache).2 (Or.inr (AList.mem_keys.2 hk)))
  · show ((LatesStore.mk (ls.cache.insert l.Name l) ls.lastReq).checkTime n1 n2).2 = []
    rw [checkTime_same_day (LatesStore.mk (ls.cache.insert l.Name l) ls.lastReq) n1 n2 h]
  · intro l2 n3 n4 n5 n6 h3 hne
    have hB := Add_same_day (ls.Add l n1 n2).1 l2 n3 n4 (by rw [hA]; exact h3)
    rw [List_result, hB, hA]
    constructor
    · refine List.mem_map.2 ⟨⟨l.Name, l⟩, AList.mem_lookup_iff.1 ?_, rfl⟩
      rw [AList.lookup_insert_ne hne]
      exact AList.lookup_insert ls.cache
    · refine List.mem_map.2 ⟨⟨l2.Name, l2⟩, AList.mem_lookup_iff.1 ?_, rfl⟩
      exact AList.lookup_insert _

/-- Witness of C6: `storeYesterday` accessed again on the ninth of March. -/
theorem C6_same_day_keeps_entries_witness :
    yesterday.Date = storeYesterday.lastReq.Date
      ∧ (storeYesterday.List yesterday yesterday).2.1.cache = storeYesterday.cache
      ∧ ann ∈ (((storeYesterday.Add ann yesterday yesterday).1.Add bob yesterday
            yesterday).1.List yesterday yesterday).1
      ∧ bob ∈ (((storeYesterday.Add ann yesterday yesterday).1.Add bob yesterday
            yesterday).1.List yesterday yesterday).1 :=
  have h := C6_same_day_keeps_entries storeYesterday ann yesterday yesterday (by decide)
  have h2 := h.2.2.2.2.2.2 bob yesterday yesterday yesterday yesterday (by decide) (by decide)
  ⟨by decide, h.1, h2.1, h2.2⟩

/-- C7: an `Add` or `List` call whose clock reading at the check has a
calendar date other than that of `lastReq` returns with the empty map as cache,
whatever was stored before; and an `Add(r)` on the new date followed by `List`
then returns exactly `[r]`. -/
theorem C7_rollover_empties_cache (ls : LatesStore) (l : Late) (n1 n2 : Time)
    (h : n1.Date ≠ ls.lastReq.Date) :
    (ls.List n1 n2).2.1.cache = ∅
      ∧ (ls.Add l n1 n2).1.cache = ∅
      ∧ ∀ (r : Late) (n3 n4 n5 n6 : Time), n3.Date = n2.Date →
          (((ls.List n1 n2).2.1.Add r n3 n4).1.List n5 n6).1 = [r]
            ∧ (((ls.Add l n1 n2).1.Add r n3 n4).1.List n5 n6).1 = [r] := by
  have hL : (ls.List n1 n2).2.1 = LatesStore.mk ∅ n2 := by
    rw [List_store, checkTime_new_day ls n1 n2 h]
  have hA := Add_new_day ls l n1 n2 h
  refine ⟨by rw [hL], by rw [hA], ?_⟩
  intro r n3 n4 n5 n6 h3
  have hr := Add_same_day (LatesStore.mk ∅ n2) r n3 n4 h3
  rw [hL, hA, List_result, hr]
  simp [AList.insert_entries]

/-- Witness of C7: `storeYesterday` accessed on the tenth of March. -/
theorem C7_rollover_empties_cache_witness :
    today.Date ≠ storeYesterday.lastReq.Date
      ∧ (storeYesterday.List today today).2.1.cache = ∅
      ∧ (((storeYesterday.List today today).2.1.Add bob todayLater todayLater).1.List
            todayLater todayLater).1 = [bob] :=
  have h := C7_rollover_empties_cache storeYesterday ann today today (by decide)
  ⟨by decide, h.1, (h.2.2 bob todayLater todayLater todayLater todayLater (by decide)).1⟩

/-- C8: after every `Add` and every `List` call, whether or not the rollover
fired, `lastReq` is the clock reading taken at line 121, the last statement of
`checkTime`, which is the last thing the call does to the store. -/
theorem C8_lastReq_is_final_reading (ls : LatesStore) (l : Late) (n1 n2 : Time) :
    (ls.Add l n1 n2).1.lastReq = n2
      ∧ (ls.List n1 n2).2.1.lastReq = n2
      ∧ (ls.checkTime n1 n2).1.lastReq = n2 :=
  ⟨checkTime_lastReq _ n1 n2, checkTime_lastReq ls n1 n2, checkTime_lastReq ls n1 n2⟩

/-- C9 (the claim as stated fails): with `lastReq` on the tenth of March and
the clock set back to the ninth, the date of now is earlier than that of
`lastReq`, and the access clears the cache that held `ann`. -/
theorem C9_earlier_date_fires_rollover :
    dateBefore yesterday.Date
        ((initStore today).Add ann today today).1.lastReq.Date
      ∧ ((initStore today).Add ann today today).1.cache.lookup "ann" = some ann
      ∧ (((initStore today).Add ann today today).1.List yesterday yesterday).2.1.cache.lookup
          "ann" = none
      ∧ (((initStore today).Add ann today today).1.checkTime yesterday yesterday).1.cache.entries
          = [] := by
  decide

/-- C9 (amended): when the calendar date of now is the same as that of
`lastReq`, also after the clock has moved backward within the day, the access
fires no rollover and the cache is not cleared; when the calendar date of now
is earlier than that of `lastReq`, the rollover fires and the cache is cleared,
since `checkTime` tests the two dates for inequality. -/
theorem C9_rollover_iff_date_differs (ls : LatesStore) (l : Late) :
    (∀ n1 n2 : Time, n1.Date = ls.lastReq.Date →
        (ls.checkTime n1 n2).1.cache = ls.cache
          ∧ (ls.List n1 n2).2.1.cache = ls.cache
          ∧ (ls.Add l n1 n2).1.cache = ls.cache.insert l.Name l)
      ∧ ∀ n1 n2 : Time, dateBefore n1.Date ls.lastReq.Date →
          (ls.checkTime n1 n2).1.cache = ∅
            ∧ (ls.List n1 n2).2.1.cache = ∅
            ∧ (ls.Add l n1 n2).1.cache = ∅ := by
  constructor
  · intro n1 n2 h
    refine ⟨?_, ?_, ?_⟩
    · rw [checkTime_same_day ls n1 n2 h]
    · rw [List_store, checkTime_same_day ls n1 n2 h]
    · rw [Add_same_day ls l n1 n2 h]
  · intro n1 n2 h
    have hne := dateBefore_ne _ _ h
    refine ⟨?_, ?_, ?_⟩
    · rw [checkTime_new_day ls n1 n2 hne]
    · rw [List_store, checkTime_new_day ls n1 n2 hne]
    · rw [Add_new_day ls l n1 n2 hne]

/-- Witness of C9 (amended): a store last used on the tenth of March at 08:05,
read at 08:00 of the same day and at 22:00 of the ninth. -/
theorem C9_rollover_iff_date_differs_witness :
    (today.Date = (LatesStore.mk storeYesterday.cache todayLater).lastReq.Date
        ∧ ((LatesStore.mk storeYesterday.cache todayLater).List today today).2.1.cache
            = storeYesterday.cache)
      ∧ (dateBefore yesterday.Date (LatesStore.mk storeYesterday.cache todayLater).lastReq.Date
        ∧ ((LatesStore.mk storeYesterday.cache todayLater).List yesterday today).2.1.cache
            = ∅) :=
  have h := C9_rollover_iff_date_differs (LatesStore.mk storeYesterday.cache todayLater) bob
  ⟨⟨by decide, (h.1 today today (by decide)).2.1⟩,
    ⟨by decide, (h.2 yesterday today (by decide)).2.1⟩⟩

/-- C10: in every state reachable from the store built by `init` through `Add`
and `List` calls at any clock readings, the keys of the cache are pairwise
distinct, every record stored under key `k` has `Name` `k`, and the `Name`s in
the sequence returned by `List` are pairwise distinct. -/
theorem C10_one_record_per_key (ls : LatesStore) (h : Reachable ls) :
    ls.cache.keys.Nodup
      ∧ (∀ (k : String) (v : Late), ls.cache.lookup k = some v → v.Name = k)
      ∧ ∀ n1 n2 : Time, ((ls.List n1 n2).1.map (fun r => r.Name)).Nodup := by
  have hk := keyedByName_of_reachable ls h
  refine ⟨ls.cache.keys_nodup, ?_, ?_⟩
  · intro k v hv
    exact hk ⟨k, v⟩ (AList.mem_lookup_iff.1 hv)
  · intro n1 n2
    rw [List_result, List.map_map]
    have hmap : ls.cache.entries.map ((fun r : Late => r.Name) ∘ fun e => e.2)
        = ls.cache.keys := by
      unfold AList.keys List.keys
      exact List.map_congr_left (fun e he => hk e he)
    rw [hmap]
    exact ls.cache.keys_nodup

/-- Witness of C10: the store after `init`, `Add(ann)`, `List` and `Add(bob)`. -/
theorem C10_one_record_per_key_witness :
    Reachable ((storeYesterday.List yesterday today).2.1.Add bob today today).1
      ∧ ((((storeYesterday.List yesterday today).2.1.Add bob today today).1.List
            todayLater todayLater).1.map (fun r => r.Name)).Nodup :=
  have hr : Reachable ((storeYesterday.List yesterday today).2.1.Add bob today today).1 :=
    Reachable.afterAdd _ bob today today
      (Reachable.afterList _ yesterday today
        (Reachable.afterAdd _ ann yesterday yesterday (Reachable.init yesterday)))
  ⟨hr, (C10_one_record_per_key _ hr).2.2 todayLater todayLater⟩


/-- C12: in every state reachable from the store built by `init`, whose cache
is an empty map made by `make`, the cache is not nil; so `Add` returns without
the nil-map panic for every record, one with the empty `Name` included, at
every clock reading, and `List` returns as well.  On these states the calls
behave as the definitions over a non-nil cache say. -/
theorem C12_add_and_list_never_panic (ls : Nilable.LatesStore)
    (h : Nilable.Reachable ls) :
    ls.cache ≠ none
      ∧ (∀ (l : Late) (n1 n2 : Time), (ls.Add l n1 n2).1 = Nilable.Outcome.returned)
      ∧ (∀ (v r : Bool) (n1 n2 : Time),
          (ls.Add (Late.mk "" v r) n1 n2).1 = Nilable.Outcome.returned)
      ∧ (∀ n1 n2 : Time, (ls.List n1 n2).1 = Nilable.Outcome.returned)
      ∧ ∃ s : LatesStore, ls = Nilable.ofStore s
          ∧ (∀ (l : Late) (n1 n2 : Time),
              (ls.Add l n1 n2).2.1 = Nilable.ofStore (s.Add l n1 n2).1)
          ∧ ∀ n1 n2 : Time, (ls.List n1 n2).2.1 = (s.List n1 n2).1
              ∧ (ls.List n1 n2).2.2.1 = Nilable.ofStore (s.List n1 n2).2.1 := by
  have hsome := nilable_reachable_isSome ls h
  obtain ⟨c, t⟩ := ls
  cases c with
  | none => exact absurd rfl hsome
  | some c =>
    have hof : Nilable.LatesStore.mk (some c) t = Nilable.ofStore (LatesStore.mk c t) := rfl
    refine ⟨hsome, fun l n1 n2 => rfl, fun v r n1 n2 => rfl, fun n1 n2 => rfl,
      LatesStore.mk c t, hof, ?_, ?_⟩
    · intro l n1 n2
      rw [hof, nilable_Add_ofStore]
    · intro n1 n2
      rw [hof, nilable_List_ofStore]
      exact ⟨rfl, rfl⟩

/-- Witness of C12: the store after `init`, an `Add` with the empty `Name` on
the ninth of March and a `List` on the tenth. -/
theorem C12_add_and_list_never_panic_witness :
    Nilable.Reachable
        ((((Nilable.initStore yesterday).Add (Late.mk "" true false) yesterday
            yesterday).2.1).List today today).2.2.1
      ∧ ((((((Nilable.initStore yesterday).Add (Late.mk "" true false) yesterday
            yesterday).2.1).List today today).2.2.1).Add (Late.mk "" false true)
              todayLater todayLater).1 = Nilable.Outcome.returned :=
  have hr : Nilable.Reachable
      ((((Nilable.initStore yesterday).Add (Late.mk "" true false) yesterday
          yesterday).2.1).List today today).2.2.1 :=
    Nilable.Reachable.afterList _ today today
      (Nilable.Reachable.afterAdd _ (Late.mk "" true false) yesterday yesterday
        (Nilable.Reachable.init yesterday))
  ⟨hr, (C12_add_and_list_never_panic _ hr).2.2.1 false true todayLater todayLater⟩

/-- C13: when the calendar date of `lastReq` lies one or more days before the
date `D`, the first access with both clock readings on `D` performs exactly one
archive-and-clear: it logs one header followed by the entries and leaves the
empty map.  The store it leaves is the same however far back `lastReq` lies.
No later access with clock readings on `D` logs or clears anything. -/
theorem C13_one_rollover_after_idle_days (ls ls2 : LatesStore) (l : Late)
    (D : Int × Nat × Nat) (n1 n2 : Time)
    (hold : dateBefore ls.lastReq.Date D) (hold2 : dateBefore ls2.lastReq.Date D)
    (hsame : ls2.cache = ls.cache) (h1 : n1.Date = D) (h2 : n2.Date = D) :
    ((ls.List n1 n2).2.2 = fmtHeader ls.lastReq :: dumpEntries ls.cache
        ∧ (ls.List n1 n2).2.1.cache = ∅)
      ∧ ((ls.Add l n1 n2).2
            = fmtHeader ls.lastReq :: dumpEntries (ls.cache.insert l.Name l)
        ∧ (ls.Add l n1 n2).1.cache = ∅)
      ∧ ((ls2.List n1 n2).2.1 = (ls.List n1 n2).2.1
        ∧ (ls2.Add l n1 n2).1 = (ls.Add l n1 n2).1
        ∧ (ls2.List n1 n2).2.2.length = (ls.List n1 n2).2.2.length
        ∧ (ls2.Add l n1 n2).2.length = (ls.Add l n1 n2).2.length)
      ∧ ∀ (c : Call) (later : List (Call × Time × Time)),
          (∀ x ∈ later, x.2.1.Date = D ∧ x.2.2.Date = D) →
          (runCalls (ls.call c n1 n2).1 later).2 = []
            ∧ ∀ k, k ∈ (ls.call c n1 n2).1.cache →
                k ∈ (runCalls (ls.call c n1 n2).1 later).1.cache := by
  have hne : n1.Date ≠ ls.lastReq.Date := by
    rw [h1]
    exact (dateBefore_ne _ _ hold).symm
  have hne2 : n1.Date ≠ ls2.lastReq.Date := by
    rw [h1]
    exact (dateBefore_ne _ _ hold2).symm
  have hL : ls.List n1 n2
      = (collect ls.cache, LatesStore.mk ∅ n2, fmtHeader ls.lastReq :: dumpEntries ls.cache) := by
    show (collect ls.cache, (ls.checkTime n1 n2).1, (ls.checkTime n1 n2).2) = _
    rw [checkTime_new_day ls n1 n2 hne]
  have hL2 : ls2.List n1 n2
      = (collect ls2.cache, LatesStore.mk ∅ n2,
          fmtHeader ls2.lastReq :: dumpEntries ls2.cache) := by
    show (collect ls2.cache, (ls2.checkTime n1 n2).1, (ls2.checkTime n1 n2).2) = _
    rw [checkTime_new_day ls2 n1 n2 hne2]
  have hA : ls.Add l n1 n2 = (LatesStore.mk ∅ n2,
      fmtHeader ls.lastReq :: dumpEntries (ls.cache.insert l.Name l)) := by
    show (LatesStore.mk (ls.cache.insert l.Name l) ls.lastReq).checkTime n1 n2 = _
    rw [checkTime_new_day (LatesStore.mk (ls.cache.insert l.Name l) ls.lastReq) n1 n2 hne]
  have hA2 : ls2.Add l n1 n2 = (LatesStore.mk ∅ n2,
      fmtHeader ls2.lastReq :: dumpEntries (ls2.cache.insert l.Name l)) := by
    show (LatesStore.mk (ls2.cache.insert l.Name l) ls2.lastReq).checkTime n1 n2 = _
    rw [checkTime_new_day (LatesStore.mk (ls2.cache.insert l.Name l) ls2.lastReq) n1 n2 hne2]
  refine ⟨by rw [hL]; exact ⟨rfl, rfl⟩, by rw [hA]; exact ⟨rfl, rfl⟩, ?_, ?_⟩
  · rw [hL, hL2, hA, hA2, hsame]
    refine ⟨rfl, rfl, ?_, ?_⟩ <;> simp
  · intro c later hlater
    have hlast : (ls.call c n1 n2).1.lastReq = n2 := by
      cases c with
      | add x => exact checkTime_lastReq _ n1 n2
      | list => exact checkTime_lastReq ls n1 n2
    refine runCalls_same_day later (ls.call c n1 n2).1 ?_
    intro x hx
    rw [hlast, h2]
    exact hlater x hx

/-- Witness of C13: a store last used on the ninth of March (one day back) and
one last used on the eighth (two days back), both first accessed on the
tenth. -/
theorem C13_one_rollover_after_idle_days_witness :
    (dateBefore storeYesterday.lastReq.Date today.Date
        ∧ dateBefore (LatesStore.mk storeYesterday.cache twoDaysAgo).lastReq.Date today.Date)
      ∧ (storeYesterday.List today todayLater).2.1.cache = ∅
      ∧ ((LatesStore.mk storeYesterday.cache twoDaysAgo).List today todayLater).2.1
          = (storeYesterday.List today todayLater).2.1
      ∧ (runCalls (storeYesterday.call Call.list today todayLater).1
          [(Call.add bob, todayLater, todayLater), (Call.list, todayLater, todayLater)]).2
          = [] :=
  have h := C13_one_rollover_after_idle_days storeYesterday
    (LatesStore.mk storeYesterday.cache twoDaysAgo) bob today.Date today todayLater
    (by decide) (by decide) rfl rfl (by decide)
  ⟨⟨by decide, by decide⟩, h.1.2, h.2.2.1.1,
    (h.2.2.2 Call.list
      [(Call.add bob, todayLater, todayLater), (Call.list, todayLater, todayLater)]
      (by decide)).1⟩

/-- C14 (the code departs from the claim): entries outlive the calendar date of
`lastReq` when the two clock readings of `checkTime` straddle midnight.  The
store holds `ann` with `lastReq` on the ninth of March at 22:00.  A call whose
reading of line 111 is one nanosecond before midnight and whose reading of line
121 is one nanosecond after it compares equal dates, clears nothing, and moves
`lastReq` to the tenth: the date of `lastReq` has changed and `ann` is still
stored.  The rollover of the eleventh then logs `ann` together with `bob` of the
tenth under the label of the tenth. -/
theorem C14_entries_outlive_date_across_midnight :
    (Time.le storeYesterday.lastReq beforeMidnight ∧ Time.le beforeMidnight afterMidnight)
      ∧ (storeYesterday.List beforeMidnight afterMidnight).2.1.lastReq.Date
          ≠ storeYesterday.lastReq.Date
      ∧ (storeYesterday.List beforeMidnight afterMidnight).2.1.cache.lookup "ann" = some ann
      ∧ (storeYesterday.Add bob beforeMidnight afterMidnight).1.lastReq.Date
          ≠ storeYesterday.lastReq.Date
      ∧ (storeYesterday.Add bob beforeMidnight afterMidnight).1.cache.lookup "ann" = some ann
      ∧ (runCalls storeYesterday
          [(Call.list, beforeMidnight, afterMidnight), (Call.add bob, today, today),
            (Call.list, tomorrow, tomorrow)]).2
          = ["Dumping logs from date: 03.10.24 \n",
              "bob: \x7bName:bob Vegetarian:false Refrigerated:true\x7d\n",
              "ann: \x7bName:ann Vegetarian:true Refrigerated:false\x7d\n"] := by
  decide

/-- C15: insertion order is irrelevant.  With all clock readings on the
calendar date of `lastReq` and `r1.Name ≠ r2.Name`, the cache after `Add(r1)`,
`Add(r2)` and the cache after `Add(r2)`, `Add(r1)` are the same map: the same
entries, up to the order in which an iteration visits them, and the same record
under every key.  `Add(r)` twice leaves the cache of a single `Add(r)`. -/
theorem C15_insertion_order_irrelevant (ls : LatesStore) (r1 r2 : Late)
    (n1 n2 n3 n4 m1 m2 m3 m4 : Time)
    (hne : r1.Name ≠ r2.Name)
    (hday : ∀ t ∈ [n1, n2, n3, n4, m1, m2, m3, m4], t.Date = ls.lastReq.Date) :
    ((ls.Add r1 n1 n2).1.Add r2 n3 n4).1.cache.entries.Perm
        ((ls.Add r2 m1 m2).1.Add r1 m3 m4).1.cache.entries
      ∧ (∀ k : String, ((ls.Add r1 n1 n2).1.Add r2 n3 n4).1.cache.lookup k
          = ((ls.Add r2 m1 m2).1.Add r1 m3 m4).1.cache.lookup k)
      ∧ ((ls.Add r1 n1 n2).1.Add r1 n3 n4).1.cache = (ls.Add r1 n1 n2).1.cache := by
  have hn1 := hday n1 (by simp)
  have hn2 := hday n2 (by simp)
  have hn3 := hday n3 (by simp)
  have hm1 := hday m1 (by simp)
  have hm2 := hday m2 (by simp)
  have hm3 := hday m3 (by simp)
  have a1 := Add_same_day ls r1 n1 n2 hn1
  have a2 := Add_same_day (ls.Add r1 n1 n2).1 r2 n3 n4 (by rw [a1]; exact hn3.trans hn2.symm)
  have b1 := Add_same_day ls r2 m1 m2 hm1
  have b2 := Add_same_day (ls.Add r2 m1 m2).1 r1 m3 m4 (by rw [b1]; exact hm3.trans hm2.symm)
  have c2 := Add_same_day (ls.Add r1 n1 n2).1 r1 n3 n4 (by rw [a1]; exact hn3.trans hn2.symm)
  have hperm : (AList.insert r2.Name r2 (AList.insert r1.Name r1 ls.cache)).entries.Perm
      (AList.insert r1.Name r1 (AList.insert r2.Name r2 ls.cache)).entries :=
    AList.insert_insert_of_ne ls.cache hne
  refine ⟨?_, ?_, ?_⟩
  · rw [a2, b2, a1, b1]
    exact hperm
  · intro k
    rw [a2, b2, a1, b1]
    exact AList.perm_lookup hperm
  · rw [c2, a1]
    exact AList.insert_insert ls.cache

/-- Witness of C15: `ann` and `bob` added in both orders to `storeYesterday`
on the ninth of March. -/
theorem C15_insertion_order_irrelevant_witness :
    ann.Name ≠ bob.Name
      ∧ ((storeYesterday.Add ann yesterday yesterday).1.Add bob yesterday
            yesterday).1.cache.lookup "bob"
          = ((storeYesterday.Add bob yesterday yesterday).1.Add ann yesterday
            yesterday).1.cache.lookup "bob"
      ∧ ((storeYesterday.Add ann yesterday yesterday).1.Add ann yesterday yesterday).1.cache
          = (storeYesterday.Add ann yesterday yesterday).1.cache :=
  have h := C15_insertion_order_irrelevant storeYesterday ann bob yesterday yesterday
    yesterday yesterday yesterday yesterday yesterday yesterday (by decide) (by decide)
  ⟨by decide, h.2.1 "bob", h.2.2⟩

/-- C16: with the log as an output sequence, a `checkTime` that detects a date
change emits one header, labelled with the month, the day and the last two
digits of the year of the old `lastReq`, followed by exactly one message per
entry of the cache as it was before the clear, each made of the key and the
record of the entry; a `checkTime` that detects no date change emits
nothing. -/
theorem C16_rollover_log (ls : LatesStore) :
    (∀ n1 n2 : Time, n1.Date ≠ ls.lastReq.Date →
        (ls.checkTime n1 n2).2.head?
            = some ("Dumping logs from date: " ++ (twoDigits ls.lastReq.month ++ "."
                ++ twoDigits ls.lastReq.day ++ "."
                ++ twoDigits (ls.lastReq.year.natAbs % 100)) ++ " \n")
          ∧ (ls.checkTime n1 n2).2.tail.Perm (ls.cache.entries.map (fun e =>
                e.1 ++ ": \x7bName:" ++ e.2.Name ++ " Vegetarian:" ++ fmtBool e.2.Vegetarian
                  ++ " Refrigerated:" ++ fmtBool e.2.Refrigerated ++ "\x7d\n"))
          ∧ (ls.checkTime n1 n2).2.length = 1 + ls.cache.keys.length
          ∧ (ls.checkTime n1 n2).1.cache = ∅)
      ∧ ∀ n1 n2 : Time, n1.Date = ls.lastReq.Date →
          (ls.checkTime n1 n2).2 = [] ∧ (ls.checkTime n1 n2).1.cache = ls.cache := by
  constructor
  · intro n1 n2 h
    rw [checkTime_new_day ls n1 n2 h, dumpEntries_eq_map]
    refine ⟨rfl, List.Perm.refl _, ?_, rfl⟩
    simp [AList.keys, List.keys, Nat.add_comm]
  · intro n1 n2 h
    rw [checkTime_same_day ls n1 n2 h]
    exact ⟨rfl, rfl⟩

/-- Witness of C16: `storeYesterday` checked on the tenth of March and once
more on the ninth. -/
theorem C16_rollover_log_witness :
    (today.Date ≠ storeYesterday.lastReq.Date
        ∧ (storeYesterday.checkTime today todayLater).2.head?
            = some "Dumping logs from date: 03.09.24 \n"
        ∧ (storeYesterday.checkTime today todayLater).2.tail.Perm
            ["ann: \x7bName:ann Vegetarian:true Refrigerated:false\x7d\n"])
      ∧ (yesterday.Date = storeYesterday.lastReq.Date
        ∧ (storeYesterday.checkTime yesterday yesterday).2 = []) :=
  have h := C16_rollover_log storeYesterday
  have h1 := h.1 today todayLater (by decide)
  ⟨⟨by decide, h1.1.trans (by decide), h1.2.1.trans (by decide)⟩,
    ⟨by decide, (h.2 yesterday yesterday (by decide)).1⟩⟩

end Lates
